import Mathlib

/-!
Verification of the bcbio-nextgen-vm telemetry harvesting engine
(`bcbiovm/provider/common/resources.py`, `bcbiovm/provider/base.py`,
`bcbiovm/provider/azure/common.py`, `bcbiovm/provider/azure/resources.py`)
against its natural-language specification.

The Python code is shallowly embedded: pure helpers become Lean functions,
the per-node and per-file loops become folds with explicit accumulators,
Python exceptions become `Except`, namedtuples become structures, and
Python dictionaries become insertion-ordered association lists.
-/

set_option synthInstance.maxSize 512

namespace BcbioVM

/-! ## Python value and dictionary helpers -/

/-- A Python value as far as the embedded code needs it: integers and
strings (attribute values of the stat namedtuple, port arguments). -/
inductive PyVal where
  | int (n : Int)
  | str (s : String)
deriving DecidableEq

instance {ε α : Type} [DecidableEq ε] [DecidableEq α] :
    DecidableEq (Except ε α)
  | .error e1, .error e2 =>
    if h : e1 = e2 then isTrue (by rw [h])
    else isFalse (fun hc => h (Except.error.inj hc))
  | .error _, .ok _ => isFalse (fun hc => Except.noConfusion hc)
  | .ok _, .error _ => isFalse (fun hc => Except.noConfusion hc)
  | .ok a1, .ok a2 =>
    if h : a1 = a2 then isTrue (by rw [h])
    else isFalse (fun hc => h (Except.ok.inj hc))

/-- Lookup in an insertion-ordered association list (Python dict read). -/
def dictGet {α : Type} (d : List (String × α)) (k : String) : Option α :=
  (d.find? (fun p => p.1 = k)).map (fun p => p.2)

/-- Update in an insertion-ordered association list (Python dict write):
an existing key keeps its position, a fresh key is appended at the end. -/
def dictSet {α : Type} (d : List (String × α)) (k : String) (v : α) :
    List (String × α) :=
  if (d.find? (fun p => p.1 = k)).isSome then
    d.map (fun p => if p.1 = k then (k, v) else p)
  else
    d ++ [(k, v)]

/-- os.path.basename for slash-separated paths. -/
def basename (p : String) : String :=
  (p.splitOn "/").getLastD ""

/-! ## Collector: the stat namedtuple and the diff rule

`Collector._collectl_files` declares
`collections.namedtuple("FileInfo", ["atime", "mtine", "size", "path"])`
(the second field name is misspelled in the source) and yields one such
tuple per remote telemetry file. -/

/-- The namedtuple yielded by `Collector._collectl_files`. The field
`mtine` keeps the misspelled name used in the source declaration; it
holds the remote modification time. -/
structure FileInfo where
  atime : Int
  mtine : Int
  size : Int
  path : String
deriving DecidableEq

/-- Python attribute access on a `FileInfo` namedtuple: only the four
declared field names resolve, any other attribute name raises
AttributeError (modelled as `none`). -/
def FileInfo.getattr (f : FileInfo) : String → Option PyVal
  | "atime" => some (.int f.atime)
  | "mtine" => some (.int f.mtine)
  | "size" => some (.int f.size)
  | "path" => some (.str f.path)
  | _ => none

/-- A file in the local cache directory, as seen by `os.path.getmtime`
(a float, embedded as a rational) and `os.path.getsize`. -/
structure LocalFile where
  mtime : Rat
  size : Int
deriving DecidableEq

/-- Python int() on a float: truncation toward zero. -/
def pyInt (q : Rat) : Int :=
  if 0 ≤ q then ⌊q⌋ else -⌊-q⌋

/-- `Collector._is_different(path, remote)`: the local file at `path` is
embedded as `dictGet cache path`, `none` when `os.path.exists` is false. -/
def is_different (localFile : Option LocalFile) (remote : FileInfo) : Bool :=
  match localFile with
  | none => true
  | some l =>
    if pyInt l.mtime ≠ remote.mtine then true
    else if l.size ≠ remote.size then true
    else false

/-! ## Collector: one iteration of the download loop in `_collect`

For one remote file the loop computes the destination path, skips the
file when `_is_different` is false, and otherwise calls
`ssh_client.download_file(collectl.path, destination,
utime=(collectl.atime, collectl.mtime))`. The argument expression reads
the attributes `atime` then `mtime` off the namedtuple, whose declared
fields are `atime, mtine, size, path`. -/

/-- A raised Python exception. -/
inductive PyError where
  | attributeError (attr : String)
deriving DecidableEq

/-- One iteration of the loop body of `Collector._collect` for remote
file `collectl`, with `cache` the local cache directory contents and
`output` the cache directory path. Returns `ok none` when the file is
skipped, `ok (some (destination, atime, mtime))` when the download call
would be reached with those utime arguments, and `error` when evaluating
the arguments raises. -/
def collect_file_step (cache : List (String × LocalFile)) (output : String)
    (collectl : FileInfo) : Except PyError (Option (String × Int × Int)) :=
  let destination := output ++ "/" ++ basename collectl.path
  if is_different (dictGet cache destination) collectl = false then
    .ok none
  else
    match collectl.getattr "atime", collectl.getattr "mtime" with
    | some (PyVal.int a), some (PyVal.int m) => .ok (some (destination, a, m))
    | some _, _ => .error (.attributeError "mtime")
    | none, _ => .error (.attributeError "atime")

/-! ## Collector: host key policy and the `_collect` call convention

`Collector._get_ssh_client(self, host, user, port=22, bastion_host=None)`
chooses `AutoAddPolicy` when `bastion_host` is truthy and `RejectPolicy`
otherwise, then connects with `bastion_host=bastion_host`.
`Collector._collect(self, host, user, bastion_host=None)` invokes it as
`self._get_ssh_client(host, user, bastion_host)` — the third argument is
positional, so it binds to the `port` parameter. -/

/-- The missing-host-key policy installed on the paramiko client. -/
inductive HostKeyPolicy where
  | autoAdd
  | reject
deriving DecidableEq

/-- The value bound to the `port` parameter: the default 22, or whatever
Python object the caller passed positionally. -/
inductive PyPort where
  | int (n : Nat)
  | none_
  | str (s : String)
deriving DecidableEq

/-- The configuration of the SSH client built by `_get_ssh_client`. -/
structure SSHClientCfg where
  host : String
  user : String
  port : PyPort
  policy : HostKeyPolicy
  bastion_host : Option String
deriving DecidableEq

/-- `Collector._get_ssh_client`: the policy is AutoAdd exactly when the
`bastion_host` parameter is truthy, and the connection is tunneled
through that same parameter. -/
def get_ssh_client (host user : String) (port : PyPort)
    (bastion_host : Option String) : SSHClientCfg :=
  { host := host, user := user, port := port,
    policy := if bastion_host.isSome then .autoAdd else .reject,
    bastion_host := bastion_host }

/-- The Python value `_collect` passes positionally into the `port` slot:
its own `bastion_host` argument, which may be `None`. -/
def PyPort.ofOption : Option String → PyPort
  | none => .none_
  | some s => .str s

/-- The client construction performed by `Collector._collect`:
`self._get_ssh_client(host, user, bastion_host)` passes `bastion_host`
positionally, so it lands in the `port` parameter and the
`bastion_host` parameter keeps its default `None`. -/
def collect_get_ssh_client (host user : String) (bastion_host : Option String) :
    SSHClientCfg :=
  get_ssh_client host user (PyPort.ofOption bastion_host) none

/-! ## BaseCloudProvider._execute_remote -/

/-- A paramiko SSHException raised by `connection.exec_command`. -/
inductive SSHException where
  | mk (msg : String)
deriving DecidableEq

/-- A slot of the pair returned by `_execute_remote`: Python `None`, the
bytes read from a channel, or the caught exception object. -/
inductive ExecSlot where
  | none_
  | bytes (s : String)
  | exc (e : SSHException)
deriving DecidableEq

/-- `BaseCloudProvider._execute_remote(connection, command)`: the call
`connection.exec_command(command)` either raises an `SSHException` or
returns channels whose reads give the stdout and stderr contents; the
embedding takes that outcome as input. The try block returns
`(None, exc)` on the caught exception and `(stdout.read(),
stderr.read())` otherwise; the function itself never raises. -/
def execute_remote (conn : Except SSHException (String × String)) :
    ExecSlot × ExecSlot :=
  match conn with
  | .error exc => (.none_, .exc exc)
  | .ok (stdout, stderr) => (.bytes stdout, .bytes stderr)

/-! ## Collector.run: the per-node loop

`Collector.run` iterates `self._collect(node.preferred_ip,
node.image_user)` over the available nodes inside the key-agent scope.
There is no try/except anywhere in `run` or `_collect`: an exception
raised while collecting from one node propagates and ends the loop. -/

/-- A cluster node as `Collector.available_nodes` sees it. -/
structure Node where
  preferred_ip : String
  image_user : String
deriving DecidableEq

/-- A transport or authentication failure while opening a session
(spec section 4.1: connect fails with ConnectivityError). -/
inductive ConnectivityError where
  | connectFail (host : String)
deriving DecidableEq

/-- The per-node loop of `Collector.run`. `connect` abstracts the
outcome of opening the session to a host; the result pairs the hosts
whose files were collected, in order, with the error that ended the
loop, if any. The source has no exception handling here, so an error
stops the iteration and no later node is visited. -/
def collector_run_nodes (connect : String → Except ConnectivityError Unit) :
    List Node → List String × Option ConnectivityError
  | [] => ([], none)
  | n :: rest =>
    match connect n.preferred_ip with
    | .error e => ([], some e)
    | .ok _ =>
      let r := collector_run_nodes connect rest
      (n.preferred_ip :: r.1, r.2)

/-- A connect outcome with nodes A and C reachable and node B failing. -/
def abcConnect : String → Except ConnectivityError Unit := fun h =>
  if h = "B" then .error (.connectFail "B") else .ok ()

/-! ## Insertion-ordered dictionary write

Python dictionaries have unique keys: an assignment to an existing key
replaces its value in place, an assignment to a fresh key appends it at
the end of the iteration order. -/

/-- Python dict assignment `d[k] = v` on the association-list model. -/
def dictSetRec {α : Type} : List (String × α) → String → α → List (String × α)
  | [], k, v => [(k, v)]
  | p :: rest, k, v =>
    if p.1 = k then (k, v) :: rest else p :: dictSetRec rest k v

/-! ## Parser: time frame, decoder model, and the scan loop -/

/-- One decoded telemetry data row (a row of the pandas DataFrame
returned by the external decoder), carrying its timestamp index. -/
structure Row where
  tstamp : Int
  payload : String
deriving DecidableEq

/-- The hardware facts returned alongside a decode, kept opaque. -/
abbrev Hardware := String

/-- A failure raised by the external decoder on a malformed file. -/
inductive DecodeError where
  | corrupt (file : String)
deriving DecidableEq

/-- Python min over a list: defined only on nonempty lists (min of an
empty sequence raises), computed by folding the binary minimum. -/
def pyMin : List Int → Option Int
  | [] => none
  | x :: xs => some (xs.foldl min x)

/-- Python max over a list, dually. -/
def pyMax : List Int → Option Int
  | [] => none
  | x :: xs => some (xs.foldl max x)

/-- The namedtuple built by `Parser._time_frame`: window start, window
end and the full list of checkpoint marks. -/
structure Time where
  start : Int
  end_ : Int
  steps : List Int
deriving DecidableEq

/-- `Parser._time_frame`: `graph.get_bcbio_timings` (external
collaborator from the bcbio package, modelled from the spec: it reads
the pipeline execution-timing log and returns the mapping of
checkpoints whose keys, iterated here as `steps`, are the checkpoint
timestamps) and then `output(min(steps), max(steps), steps)`. -/
def time_frame (steps : List Int) : Option Time :=
  match pyMin steps, pyMax steps with
  | some a, some b => some ⟨a, b, steps⟩
  | _, _ => none

/-- Modelled from the spec: `graph.load_collectl(path, start, end)` is
the external binary-format decoder collaborator (bcbio package): it
decodes one cached telemetry file restricted to the window
`[start, end]` and returns the data rows and hardware facts, or fails
on a malformed file. The raw per-file decode outcome is the input
`decode`; the window restriction is a filter on the returned rows. -/
def load_collectl (decode : String → Except DecodeError (List Row × Hardware))
    (file : String) (start end_ : Int) :
    Except DecodeError (List Row × Hardware) :=
  match decode file with
  | .error e => .error e
  | .ok (rows, hw) =>
    .ok (rows.filter
      (fun r => decide (start ≤ r.tstamp) && decide (r.tstamp ≤ end_)), hw)

/-- The fixed-shape regular expression match for the capture-timestamp
suffix: a dash, eight digits, a dash, six digits, then ".raw.gz", at
the end of the name (the pattern is anchored and of fixed length 23, so
it can only match the last 23 characters). -/
def isTimestampSuffix : List Char → Bool
  | ['-', d1, d2, d3, d4, d5, d6, d7, d8, '-', t1, t2, t3, t4, t5, t6,
     '.', 'r', 'a', 'w', '.', 'g', 'z'] =>
    [d1, d2, d3, d4, d5, d6, d7, d8].all Char.isDigit &&
      [t1, t2, t3, t4, t5, t6].all Char.isDigit
  | _ => false

/-- The host-key derivation in `Parser.run`:
`re.sub` of the anchored capture-timestamp pattern with the empty
string — the suffix is removed when it matches, otherwise the filename
is returned unchanged. -/
def strip_timestamp_suffix (file : String) : String :=
  let cs := file.data
  if isTimestampSuffix (cs.drop (cs.length - 23)) then
    String.mk (cs.take (cs.length - 23))
  else file

/-- Python str.endswith: the last characters of the string equal the
suffix (false when the string is shorter than the suffix, since the
lengths then differ). -/
def pyEndsWith (s suf : String) : Bool :=
  decide (s.data.drop (s.data.length - suf.data.length) = suf.data)

/-- Python string comparison: lexicographic by code point. -/
def pyStrLe : List Char → List Char → Bool
  | [], _ => true
  | _ :: _, [] => false
  | a :: as, b :: bs =>
    if a = b then pyStrLe as bs else decide (a.val < b.val)

/-- Python sorted() over the cache directory listing: the stable
ascending sort. Duplicate-free string keys make every correct sort
produce the same list, so the structurally recursive insertion sort is
an exact embedding. -/
def pySorted (l : List String) : List String :=
  l.insertionSort (fun a b => pyStrLe a.data b.data = true)

/-- One iteration of the scan loop in `Parser.run` over accumulator
`(data_frames, hardware_info)`: skip files without the telemetry
suffix, decode the rest (an uncaught decoder failure propagates), skip
decodes with zero rows, and otherwise write the hardware facts and
initialize or concatenate the data frame under the stripped host key. -/
def parser_step (decode : String → Except DecodeError (List Row × Hardware))
    (start end_ : Int)
    (acc : List (String × List Row) × List (String × Hardware))
    (collectl_file : String) :
    Except DecodeError (List (String × List Row) × List (String × Hardware)) :=
  if ¬ pyEndsWith collectl_file ".raw.gz" then .ok acc
  else
    match load_collectl decode collectl_file start end_ with
    | .error e => .error e
    | .ok (data, hardware) =>
      if data.length = 0 then .ok acc
      else
        let host := strip_timestamp_suffix collectl_file
        let hardware_info := dictSetRec acc.2 host hardware
        let data_frames :=
          match dictGet acc.1 host with
          | none => dictSetRec acc.1 host data
          | some old => dictSetRec acc.1 host (old ++ data)
        .ok (data_frames, hardware_info)

/-- `Parser.run`: compute the time frame (Python min/max raise on an
empty checkpoint log, hence the outer Option), then fold the scan step
over the sorted directory listing; the result is the triple
`(data_frames, hardware_info, steps)` or the propagated decode error. -/
def parser_run (decode : String → Except DecodeError (List Row × Hardware))
    (rawdir : List String) (steps : List Int) :
    Option (Except DecodeError
      (List (String × List Row) × List (String × Hardware) × List Int)) :=
  match time_frame steps with
  | none => none
  | some tf =>
    some (Except.map (fun acc => (acc.1, acc.2, tf.steps))
      ((pySorted rawdir).foldlM (parser_step decode tf.start tf.end_) ([], [])))

/-- The rows the scan contributes to one host: the concatenation, in
iteration order, of the window-restricted decodes of the files whose
stripped name is that host (files with another suffix, failed decodes
and empty decodes contribute nothing). -/
def host_rows (decode : String → Except DecodeError (List Row × Hardware))
    (start end_ : Int) (host : String) : List String → List Row
  | [] => []
  | f :: rest =>
    (if pyEndsWith f ".raw.gz" then
      match load_collectl decode f start end_ with
      | .ok (data, _) =>
        if data.length = 0 then []
        else if strip_timestamp_suffix f = host then data else []
      | .error _ => []
    else []) ++ host_rows decode start end_ host rest

/-- Combine a previous dictionary entry with newly contributed rows:
no entry is created when nothing is contributed. -/
def optAppend (old : Option (List Row)) (new : List Row) : Option (List Row) :=
  match old, new with
  | none, [] => none
  | none, rows => some rows
  | some old, rows => some (old ++ rows)

/-- A concrete decode outcome used to instantiate the Parser theorems:
the two capture files of host web1 decode to one row each, anything
else decodes to a fixed single row. -/
def sampleDecode : String → Except DecodeError (List Row × Hardware) :=
  fun f =>
    if f = "web1-20230101-000000.raw.gz" then .ok ([⟨15, "r1"⟩], "hw1")
    else if f = "web1-20230102-000000.raw.gz" then .ok ([⟨20, "r2"⟩], "hw2")
    else .ok ([⟨25, "r3"⟩], "hw3")

/-- A concrete decode outcome where the middle file in sorted order is
malformed. -/
def corruptDecode : String → Except DecodeError (List Row × Hardware) :=
  fun f =>
    if f = "host2-20230101-000000.raw.gz" then .error (.corrupt f)
    else .ok ([⟨20, "c"⟩], "hw")

/-- A concrete decode outcome with no failures. -/
def okDecode : String → Except DecodeError (List Row × Hardware) :=
  fun _ => .ok ([⟨20, "c"⟩], "hw")

/-! ## Azure provider API and the report model

`AzureAPI.security_groups` issues an HTTPS GET; the response is embedded
by its status code and by the outcome of `ElementTree.fromstring`: a
parse failure, or the list of NetworkSecurityGroup elements each with
an optional azure:Name text. Log calls are collected in a list. -/

/-- The level of an emitted log record. -/
inductive LogLevel where
  | info
  | warning
  | error_
  | exception_
deriving DecidableEq

/-- The body of a provider API response as seen through
`ElementTree.fromstring`: malformed XML, or the parsed security-group
elements with their optional names. -/
inductive XmlBody where
  | malformed
  | doc (groups : List (Option String))
deriving DecidableEq

/-- A provider API response. -/
structure ApiResponse where
  status_code : Nat
  text : XmlBody
deriving DecidableEq

/-- `AzureAPI.security_groups`: start from an empty set; on a 200
response parse the XML and add every present group name (a ParseError
is logged via LOG.exception); on any other status log an error; return
whatever was accumulated — failures yield the empty set, never an
exception. The Python set is embedded as the deduplicated name list. -/
def security_groups (resp : ApiResponse) :
    List String × List (LogLevel × String) :=
  if resp.status_code = 200 then
    match resp.text with
    | .malformed => ([], [(.exception_, "ParseError")])
    | .doc groups => ((groups.filterMap id).dedup, [])
  else ([], [(.error_, "Failed to get security groups !")])

/-- Modelled from the spec: a Section of the report document
(`bcbiovm.common.objects` is not under src): a name, a title, an
ordered field schema of (name, label) columns and an ordered item
list. -/
structure ReportSection where
  name : String
  title : String
  fields : List (String × String)
  items : List String
deriving DecidableEq

/-- Modelled from the spec: the report document is an ordered sequence
of sections, append-only during construction. -/
structure ReportDoc where
  sections : List ReportSection
deriving DecidableEq

/-- Modelled from the spec: `Report.add_section(name, title)` registers
a new, empty section appended to the document. -/
def add_section (doc : ReportDoc) (name title : String) : ReportDoc :=
  ⟨doc.sections ++ [⟨name, title, [], []⟩]⟩

/-- Modelled from the spec: `Section.add_field(name, label)` appends a
column to the named section schema. -/
def add_field (doc : ReportDoc) (sname fname flabel : String) : ReportDoc :=
  ⟨doc.sections.map (fun s =>
    if s.name = sname then
      { s with fields := s.fields ++ [(fname, flabel)] }
    else s)⟩

/-- Modelled from the spec: `Section.add_items(rows)` appends one item
per row to the named section. -/
def add_items (doc : ReportDoc) (sname : String) (rows : List String) :
    ReportDoc :=
  ⟨doc.sections.map (fun s =>
    if s.name = sname then { s with items := s.items ++ rows } else s)⟩

/-- `Report.add_security_groups_info` of the Azure provider: create
section "sg" with its one field, query the API, and if no groups come
back log a warning and return with the section left empty; otherwise
log the expected-group check and add one item per group. The returned
pair carries the grown document and the emitted log records. -/
def add_security_groups_info (doc : ReportDoc) (expected_sg : Option String)
    (resp : ApiResponse) : ReportDoc × List (LogLevel × String) :=
  let doc1 := add_field (add_section doc "sg" "Security groups")
    "sg" "sg" "Security Group"
  let sg := security_groups resp
  if sg.1 = [] then
    (doc1, sg.2 ++ [(.warning, "No security groups defined.")])
  else
    let checkLog :=
      match expected_sg with
      | some e =>
        if e ∈ sg.1 then
          [(LogLevel.info, "Expected security group exists.")]
        else [(LogLevel.warning, "Security group does not exist.")]
      | none => [(LogLevel.warning, "Security group does not exist.")]
    (add_items doc1 "sg" sg.1, sg.2 ++ checkLog)

end BcbioVM

namespace BcbioVM

/-! ## Helper lemmas on the dictionary model and Python folds -/

theorem dictGet_cons {α : Type} (p : String × α) (rest : List (String × α))
    (k : String) :
    dictGet (p :: rest) k = if p.1 = k then some p.2 else dictGet rest k := by
  by_cases h : p.1 = k <;> simp [dictGet, List.find?_cons, h]

theorem dictGet_dictSetRec {α : Type} (d : List (String × α)) (k k' : String)
    (v : α) :
    dictGet (dictSetRec d k v) k' = if k' = k then some v else dictGet d k' := by
  induction d with
  | nil =>
    by_cases h : k' = k
    · subst h; simp [dictSetRec, dictGet_cons]
    · have h2 : ¬ k = k' := fun hh => h hh.symm
      simp [dictSetRec, dictGet_cons, h, h2, dictGet]
  | cons p rest ih =>
    by_cases hpk : p.1 = k
    · by_cases h : k' = k
      · subst h; simp [dictSetRec, hpk, dictGet_cons]
      · have h2 : ¬ k = k' := fun hh => h hh.symm
        have hpk' : ¬ p.1 = k' := fun hc => h2 (hpk ▸ hc)
        simp [dictSetRec, hpk, dictGet_cons, h, h2, hpk']
    · by_cases h : k' = k
      · subst h
        have hpk' : ¬ p.1 = k' := hpk
        simp [dictSetRec, hpk, dictGet_cons, ih, hpk']
      · simp [dictSetRec, hpk, dictGet_cons, ih, h]

theorem keys_dictSetRec {α : Type} (d : List (String × α)) (k : String)
    (v : α) :
    (dictSetRec d k v).map Prod.fst =
      if (dictGet d k).isNone then d.map Prod.fst ++ [k]
      else d.map Prod.fst := by
  induction d with
  | nil => simp [dictSetRec, dictGet]
  | cons p rest ih =>
    by_cases hpk : p.1 = k
    · simp [dictSetRec, hpk, dictGet_cons]
    · simp only [dictSetRec, hpk, if_false, dictGet_cons, List.map_cons]
      by_cases hr : (dictGet rest k).isNone <;> simp [hr, ih]

theorem dictGet_eq_none_iff {α : Type} (d : List (String × α)) (k : String) :
    dictGet d k = none ↔ k ∉ d.map Prod.fst := by
  induction d with
  | nil => simp [dictGet]
  | cons p rest ih =>
    by_cases h : p.1 = k
    · subst h; simp [dictGet_cons]
    · have h2 : ¬ k = p.1 := fun hc => h hc.symm
      simp [dictGet_cons, h, ih, h2]

theorem foldl_min_mem (xs : List Int) : ∀ a : Int, xs.foldl min a ∈ a :: xs := by
  induction xs with
  | nil => intro a; simp
  | cons b rest ih =>
    intro a
    rw [List.foldl_cons]
    rcases List.mem_cons.mp (ih (min a b)) with h1 | h1
    · rcases min_choice a b with hc | hc
      · exact List.mem_cons.mpr (Or.inl (h1.trans hc))
      · exact List.mem_cons.mpr
          (Or.inr (List.mem_cons.mpr (Or.inl (h1.trans hc))))
    · exact List.mem_cons.mpr (Or.inr (List.mem_cons.mpr (Or.inr h1)))

theorem foldl_min_le (xs : List Int) : ∀ a : Int,
    xs.foldl min a ≤ a ∧ ∀ y ∈ xs, xs.foldl min a ≤ y := by
  induction xs with
  | nil => intro a; simp
  | cons b rest ih =>
    intro a
    rw [List.foldl_cons]
    refine ⟨(ih (min a b)).1.trans (min_le_left a b), ?_⟩
    intro y hy
    rcases List.mem_cons.mp hy with rfl | hy
    · exact (ih (min a y)).1.trans (min_le_right a y)
    · exact (ih (min a b)).2 y hy

theorem foldl_max_mem (xs : List Int) : ∀ a : Int, xs.foldl max a ∈ a :: xs := by
  induction xs with
  | nil => intro a; simp
  | cons b rest ih =>
    intro a
    rw [List.foldl_cons]
    rcases List.mem_cons.mp (ih (max a b)) with h1 | h1
    · rcases max_choice a b with hc | hc
      · exact List.mem_cons.mpr (Or.inl (h1.trans hc))
      · exact List.mem_cons.mpr
          (Or.inr (List.mem_cons.mpr (Or.inl (h1.trans hc))))
    · exact List.mem_cons.mpr (Or.inr (List.mem_cons.mpr (Or.inr h1)))

theorem foldl_max_ge (xs : List Int) : ∀ a : Int,
    a ≤ xs.foldl max a ∧ ∀ y ∈ xs, y ≤ xs.foldl max a := by
  induction xs with
  | nil => intro a; simp
  | cons b rest ih =>
    intro a
    rw [List.foldl_cons]
    refine ⟨(le_max_left a b).trans (ih (max a b)).1, ?_⟩
    intro y hy
    rcases List.mem_cons.mp hy with rfl | hy
    · exact (le_max_right a y).trans (ih (max a y)).1
    · exact (ih (max a b)).2 y hy

theorem exceptBind_ok {ε α β : Type} {x : Except ε α} {g : α → Except ε β}
    {b : β} (h : x >>= g = Except.ok b) :
    ∃ a, x = Except.ok a ∧ g a = Except.ok b := by
  cases x with
  | error e =>
    simp only [Bind.bind, Except.bind] at h
    exact absurd h (by simp)
  | ok a => exact ⟨a, rfl, by simpa only [Bind.bind, Except.bind] using h⟩

theorem optAppend_nil (old : Option (List Row)) : optAppend old [] = old := by
  cases old <;> simp [optAppend]

theorem optAppend_none (l : List Row) :
    optAppend none l = if l = [] then none else some l := by
  cases l <;> simp [optAppend]

theorem optAppend_some (l r : List Row) : optAppend (some l) r = some (l ++ r) := by
  cases r <;> simp [optAppend]

/-! ## Invariants of the Parser scan fold -/

theorem parser_fold_rows
    (decode : String → Except DecodeError (List Row × Hardware))
    (start end_ : Int) :
    ∀ (files : List String)
      (acc res : List (String × List Row) × List (String × Hardware)),
      files.foldlM (parser_step decode start end_) acc = Except.ok res →
      ∀ host, dictGet res.1 host =
        optAppend (dictGet acc.1 host)
          (host_rows decode start end_ host files) := by
  intro files
  induction files with
  | nil =>
    intro acc res h host
    simp only [List.foldlM_nil, pure, Except.pure, Except.ok.injEq] at h
    subst h
    simp [host_rows, optAppend_nil]
  | cons f rest ih =>
    intro acc res h host
    rw [List.foldlM_cons] at h
    obtain ⟨acc', hstep, hrest⟩ := exceptBind_ok h
    simp only [parser_step] at hstep
    by_cases hs : pyEndsWith f ".raw.gz" = true
    · rw [if_neg (not_not_intro hs)] at hstep
      cases hl : load_collectl decode f start end_ with
      | error e => rw [hl] at hstep; simp at hstep
      | ok dh =>
        obtain ⟨data, hardware⟩ := dh
        rw [hl] at hstep
        simp only [] at hstep
        by_cases hz : data.length = 0
        · rw [if_pos hz] at hstep
          have hacc : acc = acc' := by simpa using hstep
          rw [← hacc] at hrest
          rw [ih acc res hrest host]
          simp [host_rows, hs, hl, hz]
        · rw [if_neg hz] at hstep
          have hstep' :
              ((match dictGet acc.1 (strip_timestamp_suffix f) with
                | none => dictSetRec acc.1 (strip_timestamp_suffix f) data
                | some old =>
                  dictSetRec acc.1 (strip_timestamp_suffix f) (old ++ data)),
                dictSetRec acc.2 (strip_timestamp_suffix f) hardware)
                = acc' := by
            simpa using hstep
          have hd : data ≠ [] := fun hc => hz (by simp [hc])
          by_cases hhost : strip_timestamp_suffix f = host
          · subst hhost
            cases hold : dictGet acc.1 (strip_timestamp_suffix f) with
            | none =>
              have hacc1 : dictGet acc'.1 (strip_timestamp_suffix f)
                  = some data := by
                rw [← hstep', hold]
                simp [dictGet_dictSetRec]
              have hgoal := ih acc' res hrest (strip_timestamp_suffix f)
              rw [hacc1, optAppend_some] at hgoal
              rw [hgoal]
              simp [host_rows, hs, hl, hz, optAppend_none, hd]
            | some old =>
              have hacc1 : dictGet acc'.1 (strip_timestamp_suffix f)
                  = some (old ++ data) := by
                rw [← hstep', hold]
                simp [dictGet_dictSetRec]
              have hgoal := ih acc' res hrest (strip_timestamp_suffix f)
              rw [hacc1, optAppend_some] at hgoal
              rw [hgoal, optAppend_some]
              simp [host_rows, hs, hl, hz, List.append_assoc]
          · have hne : ¬ host = strip_timestamp_suffix f :=
              fun hc => hhost hc.symm
            have hacc1 : dictGet acc'.1 host = dictGet acc.1 host := by
              rw [← hstep']
              cases hold : dictGet acc.1 (strip_timestamp_suffix f) <;>
                simp [dictGet_dictSetRec, hne]
            have hgoal := ih acc' res hrest host
            rw [hacc1] at hgoal
            rw [hgoal]
            simp [host_rows, hs, hl, hz, hhost]
    · rw [if_pos hs] at hstep
      have hacc : acc = acc' := by simpa using hstep
      rw [← hacc] at hrest
      rw [ih acc res hrest host]
      simp [host_rows, hs]

theorem parser_fold_keys
    (decode : String → Except DecodeError (List Row × Hardware))
    (start end_ : Int) :
    ∀ (files : List String)
      (acc res : List (String × List Row) × List (String × Hardware)),
      files.foldlM (parser_step decode start end_) acc = Except.ok res →
      acc.1.map Prod.fst = acc.2.map Prod.fst →
      res.1.map Prod.fst = res.2.map Prod.fst := by
  intro files
  induction files with
  | nil =>
    intro acc res h hkeys
    simp only [List.foldlM_nil, pure, Except.pure, Except.ok.injEq] at h
    subst h
    exact hkeys
  | cons f rest ih =>
    intro acc res h hkeys
    rw [List.foldlM_cons] at h
    obtain ⟨acc', hstep, hrest⟩ := exceptBind_ok h
    refine ih acc' res hrest ?_
    simp only [parser_step] at hstep
    by_cases hs : pyEndsWith f ".raw.gz" = true
    · rw [if_neg (not_not_intro hs)] at hstep
      cases hl : load_collectl decode f start end_ with
      | error e => rw [hl] at hstep; simp at hstep
      | ok dh =>
        obtain ⟨data, hardware⟩ := dh
        rw [hl] at hstep
        simp only [] at hstep
        by_cases hz : data.length = 0
        · rw [if_pos hz] at hstep
          have hacc : acc = acc' := by simpa using hstep
          rw [← hacc]; exact hkeys
        · rw [if_neg hz] at hstep
          have hstep' :
              ((match dictGet acc.1 (strip_timestamp_suffix f) with
                | none => dictSetRec acc.1 (strip_timestamp_suffix f) data
                | some old =>
                  dictSetRec acc.1 (strip_timestamp_suffix f) (old ++ data)),
                dictSetRec acc.2 (strip_timestamp_suffix f) hardware)
                = acc' := by
            simpa using hstep
          have hnone : (dictGet acc.1 (strip_timestamp_suffix f)).isNone
              = (dictGet acc.2 (strip_timestamp_suffix f)).isNone := by
            have h1 := dictGet_eq_none_iff acc.1 (strip_timestamp_suffix f)
            have h2 := dictGet_eq_none_iff acc.2 (strip_timestamp_suffix f)
            rw [hkeys] at h1
            cases hc1 : dictGet acc.1 (strip_timestamp_suffix f) with
            | none =>
              have hc2 : dictGet acc.2 (strip_timestamp_suffix f) = none :=
                h2.mpr (h1.mp hc1)
              simp [hc2]
            | some w =>
              cases hc2 : dictGet acc.2 (strip_timestamp_suffix f) with
              | none =>
                exact absurd (h1.mpr (h2.mp hc2)) (by simp [hc1])
              | some w2 => simp
          rw [← hstep']
          cases hold : dictGet acc.1 (strip_timestamp_suffix f) with
          | none =>
            rw [hold] at hnone
            simp only [keys_dictSetRec, hold, ← hnone, Option.isNone_none,
              if_true, List.map_cons]
            rw [hkeys]
          | some old =>
            rw [hold] at hnone
            simp only [keys_dictSetRec, hold, ← hnone, Option.isNone_some,
              Bool.false_eq_true, if_false]
            rw [hkeys]
    · rw [if_pos hs] at hstep
      have hacc : acc = acc' := by simpa using hstep
      rw [← hacc]; exact hkeys

theorem parser_fold_decode_ok
    (decode : String → Except DecodeError (List Row × Hardware))
    (start end_ : Int) :
    ∀ (files : List String)
      (acc res : List (String × List Row) × List (String × Hardware)),
      files.foldlM (parser_step decode start end_) acc = Except.ok res →
      ∀ f ∈ files, pyEndsWith f ".raw.gz" = true → (decode f).isOk = true := by
  intro files
  induction files with
  | nil => intro acc res _ f hf; exact absurd hf (List.not_mem_nil f)
  | cons g rest ih =>
    intro acc res h f hf hsuf
    rw [List.foldlM_cons] at h
    obtain ⟨acc', hstep, hrest⟩ := exceptBind_ok h
    rcases List.mem_cons.mp hf with rfl | hf
    · simp only [parser_step, hsuf, not_true_eq_false, if_false] at hstep
      cases hd : decode f with
      | error e =>
        simp only [load_collectl, hd] at hstep
        exact absurd hstep (by simp)
      | ok dh => simp [Except.isOk, Except.toBool]
    · exact ih acc' res hrest f hf hsuf

theorem host_rows_window
    (decode : String → Except DecodeError (List Row × Hardware))
    (start end_ : Int) (host : String) :
    ∀ (files : List String) (r : Row),
      r ∈ host_rows decode start end_ host files →
      start ≤ r.tstamp ∧ r.tstamp ≤ end_ := by
  intro files
  induction files with
  | nil => intro r hr; exact absurd hr (List.not_mem_nil r)
  | cons f rest ih =>
    intro r hr
    rw [host_rows, List.mem_append] at hr
    rcases hr with hr | hr
    · by_cases hs : pyEndsWith f ".raw.gz" = true
      · simp only [hs, if_true] at hr
        cases hl : load_collectl decode f start end_ with
        | error e => rw [hl] at hr; exact absurd hr (List.not_mem_nil r)
        | ok dh =>
          obtain ⟨data, hardware⟩ := dh
          rw [hl] at hr
          by_cases hz : data.length = 0
          · simp only [hz, if_true] at hr
            exact absurd hr (List.not_mem_nil r)
          · simp only [hz, if_false] at hr
            by_cases hhost : strip_timestamp_suffix f = host
            · simp only [hhost, if_true] at hr
              cases hd : decode f with
              | error e => simp [load_collectl, hd] at hl
              | ok rh =>
                obtain ⟨rows, hw⟩ := rh
                simp only [load_collectl, hd, Except.ok.injEq,
                  Prod.mk.injEq] at hl
                rw [← hl.1] at hr
                have := (List.mem_filter.mp hr).2
                simp only [Bool.and_eq_true, decide_eq_true_eq] at this
                exact this
            · simp only [hhost, if_false] at hr
              exact absurd hr (List.not_mem_nil r)
      · simp only [hs, if_false] at hr
        exact absurd hr (List.not_mem_nil r)
    · exact ih r hr

/-! ## Theorems for claims C1, C2, C7, C8 -/

/-- C1: the Collector downloads a remote telemetry file iff no local
file of the same name exists, or the local modification time truncated
to integer seconds differs from the remote modification time, or the
local size differs from the remote size; a file equal under all three
comparisons is skipped. -/
theorem collector_diff_rule (localFile : Option LocalFile) (remote : FileInfo) :
    is_different localFile remote = true ↔
      localFile = none ∨
        ∃ l, localFile = some l ∧
          (pyInt l.mtime ≠ remote.mtine ∨ l.size ≠ remote.size) := by
  cases localFile with
  | none => simp [is_different]
  | some l =>
    simp only [is_different, reduceCtorEq, false_or, Option.some.injEq]
    constructor
    · intro h
      by_cases h1 : pyInt l.mtime = remote.mtine
      · by_cases h2 : l.size = remote.size
        · simp [h1, h2] at h
        · exact ⟨l, rfl, Or.inr h2⟩
      · exact ⟨l, rfl, Or.inl h1⟩
    · rintro ⟨l', hl, h⟩
      cases hl
      rcases h with h | h <;> simp [h]

/-- C2 (code bug evidence): whenever the diff rule decides a file must be
downloaded, the download call in `Collector._collect` raises
AttributeError, because it reads `collectl.mtime` while the namedtuple
field is declared `mtine`; so no run ever sets the local file times from
the remote descriptor, and the claimed second-run stability is
unreachable for any file the first run had to transfer. -/
theorem collect_download_raises (cache : List (String × LocalFile))
    (output : String) (collectl : FileInfo)
    (h : is_different (dictGet cache (output ++ "/" ++ basename collectl.path))
          collectl = true) :
    collect_file_step cache output collectl =
      Except.error (PyError.attributeError "mtime") := by
  unfold collect_file_step
  simp only [h]
  rfl

/-- Witness for `collect_download_raises`: a remote file absent from an
empty local cache is decided different, and the download step raises. -/
theorem collect_download_raises_witness :
    is_different
        (dictGet ([] : List (String × LocalFile))
          ("/rawdir" ++ "/" ++
            basename "/var/log/collectl/web1-20230101-000000.raw.gz"))
        ⟨5, 10, 3, "/var/log/collectl/web1-20230101-000000.raw.gz"⟩ = true ∧
      collect_file_step [] "/rawdir"
          ⟨5, 10, 3, "/var/log/collectl/web1-20230101-000000.raw.gz"⟩ =
        Except.error (PyError.attributeError "mtime") :=
  ⟨by decide,
    collect_download_raises [] "/rawdir"
      ⟨5, 10, 3, "/var/log/collectl/web1-20230101-000000.raw.gz"⟩ (by decide)⟩

/-- C7 (code bug evidence): in the shared-filesystem pass,
`_collect(host, user, bastion_host=NAT)` builds its client through
`self._get_ssh_client(host, user, bastion_host)`, binding the NAT device
to the `port` parameter; the `bastion_host` parameter stays `None`, so
the RejectPolicy is installed and no bastion tunnel is used — unknown
hosts are rejected, not auto-trusted. -/
theorem lustre_collect_rejects_unknown_hosts :
    (collect_get_ssh_client "10.0.0.5" "ec2-user" (some "nat-device")).policy
        = HostKeyPolicy.reject ∧
      (collect_get_ssh_client "10.0.0.5" "ec2-user"
          (some "nat-device")).bastion_host = none ∧
      (collect_get_ssh_client "10.0.0.5" "ec2-user" (some "nat-device")).port
        = PyPort.str "nat-device" := by
  exact ⟨rfl, rfl, rfl⟩

/-- C8: `_execute_remote` is a total function of the execution outcome:
on success it returns the pair of stdout and stderr contents, and on a
connectivity failure (a raised SSHException) it returns a pair whose
error slot carries the caught exception value — it never propagates the
exception. -/
theorem execute_remote_never_raises (stdout stderr : String)
    (exc : SSHException) :
    execute_remote (Except.ok (stdout, stderr))
        = (ExecSlot.bytes stdout, ExecSlot.bytes stderr) ∧
      execute_remote (Except.error exc) = (ExecSlot.none_, ExecSlot.exc exc) :=
  ⟨rfl, rfl⟩

/-! ## Further helper lemmas for the Parser claims -/

theorem dictGet_nil {α : Type} (k : String) :
    dictGet ([] : List (String × α)) k = none := rfl

theorem exceptMap_ok {ε α β : Type} {g : α → β} {x : Except ε α} {b : β}
    (h : Except.map g x = Except.ok b) : ∃ a, x = Except.ok a ∧ g a = b := by
  cases x with
  | error e => simp [Except.map] at h
  | ok a =>
    refine ⟨a, rfl, ?_⟩
    simpa [Except.map] using h

theorem isTimestampSuffix_length (cs : List Char)
    (h : isTimestampSuffix cs = true) : cs.length = 23 := by
  unfold isTimestampSuffix at h
  split at h
  · rfl
  · exact absurd h (by simp)

theorem strip_append_suffix (base t : String)
    (ht : isTimestampSuffix t.data = true) :
    strip_timestamp_suffix (base ++ t) = base := by
  have hlen : t.data.length = 23 := isTimestampSuffix_length t.data ht
  have hdata : (base ++ t).data = base.data ++ t.data :=
    String.data_append base t
  simp only [strip_timestamp_suffix, hdata, List.length_append, hlen,
    Nat.add_sub_cancel, List.drop_left, List.take_left, ht, if_true]

theorem mem_pySorted (l : List String) (f : String) :
    f ∈ pySorted l ↔ f ∈ l :=
  (List.perm_insertionSort _ l).mem_iff

/-! ## Theorems for claims C3, C4, C5, C6, C10, C9 -/

/-- C3 counterexample: with nodes A, B, C and the connection to B
failing, the `Collector.run` loop does not continue to the remaining
node: only A is collected, the failure propagates, and C is never
visited — the claim that A and C are both still collected fails. -/
theorem collector_not_node_isolated :
    collector_run_nodes abcConnect
        [⟨"A", "ubuntu"⟩, ⟨"B", "ubuntu"⟩, ⟨"C", "ubuntu"⟩]
      = (["A"], some (ConnectivityError.connectFail "B")) ∧
    "C" ∉ (collector_run_nodes abcConnect
        [⟨"A", "ubuntu"⟩, ⟨"B", "ubuntu"⟩, ⟨"C", "ubuntu"⟩]).1 := by
  constructor
  · decide
  · decide

/-- C3 amended: the loop in `Collector.run` has no per-node exception
boundary: when every node before `b` connects and `b` fails, the run
collects exactly the nodes preceding `b` and stops with the propagated
error, never reaching the nodes after `b`. -/
theorem collector_failure_aborts_loop
    (connect : String → Except ConnectivityError Unit)
    (pre post : List Node) (b : Node) (e : ConnectivityError)
    (hpre : ∀ n ∈ pre, connect n.preferred_ip = Except.ok ())
    (hb : connect b.preferred_ip = Except.error e) :
    collector_run_nodes connect (pre ++ b :: post)
      = (pre.map Node.preferred_ip, some e) := by
  induction pre with
  | nil => simp [collector_run_nodes, hb]
  | cons n rest ih =>
    have hn := hpre n (List.mem_cons_self n rest)
    have hrec := ih (fun m hm => hpre m (List.mem_cons_of_mem n hm))
    simp [collector_run_nodes, hn, hrec]

/-- Witness for `collector_failure_aborts_loop` at the A, B, C fleet. -/
theorem collector_failure_aborts_loop_witness :
    collector_run_nodes abcConnect
        ([⟨"A", "ubuntu"⟩] ++ ⟨"B", "ubuntu"⟩ :: [⟨"C", "ubuntu"⟩])
      = (List.map Node.preferred_ip [⟨"A", "ubuntu"⟩],
          some (ConnectivityError.connectFail "B")) :=
  collector_failure_aborts_loop abcConnect [⟨"A", "ubuntu"⟩]
    [⟨"C", "ubuntu"⟩] ⟨"B", "ubuntu"⟩ (ConnectivityError.connectFail "B")
    (by intro n hn; rw [List.mem_singleton] at hn; subst hn; rfl)
    (by rfl)

/-- C4: for a nonempty execution-timing log the derived time frame has
start equal to the minimum and end equal to the maximum of the
checkpoint timestamps, and every row of every host series returned by a
successful Parser run has its timestamp inside the window. -/
theorem parser_time_window (steps : List Int) (hne : steps ≠ []) :
    ∃ tf, time_frame steps = some tf ∧
      tf.start ∈ steps ∧ (∀ s ∈ steps, tf.start ≤ s) ∧
      tf.end_ ∈ steps ∧ (∀ s ∈ steps, s ≤ tf.end_) ∧
      ∀ (decode : String → Except DecodeError (List Row × Hardware))
        (rawdir : List String) (df : List (String × List Row))
        (hw : List (String × Hardware)) (marks : List Int),
        parser_run decode rawdir steps = some (Except.ok (df, hw, marks)) →
        ∀ host rows, dictGet df host = some rows →
        ∀ r ∈ rows, tf.start ≤ r.tstamp ∧ r.tstamp ≤ tf.end_ := by
  cases steps with
  | nil => exact absurd rfl hne
  | cons s0 srest =>
    refine ⟨⟨srest.foldl min s0, srest.foldl max s0, s0 :: srest⟩, rfl,
      foldl_min_mem srest s0, ?_, foldl_max_mem srest s0, ?_, ?_⟩
    · intro s hs
      rcases List.mem_cons.mp hs with rfl | hs
      · exact (foldl_min_le srest s).1
      · exact (foldl_min_le srest s0).2 s hs
    · intro s hs
      rcases List.mem_cons.mp hs with rfl | hs
      · exact (foldl_max_ge srest s).1
      · exact (foldl_max_ge srest s0).2 s hs
    · intro decode rawdir df hw marks hrun host rows hrows r hr
      have htf : time_frame (s0 :: srest)
          = some ⟨srest.foldl min s0, srest.foldl max s0, s0 :: srest⟩ := rfl
      simp only [parser_run, htf, Option.some.injEq] at hrun
      obtain ⟨acc, hfold, hg⟩ := exceptMap_ok hrun
      have hdf : acc.1 = df := by
        have := congrArg Prod.fst hg; simpa using this
      have hinv := parser_fold_rows decode (srest.foldl min s0)
        (srest.foldl max s0) (pySorted rawdir) ([], []) acc hfold host
      rw [hdf, hrows] at hinv
      rw [dictGet_nil, optAppend_none] at hinv
      by_cases hnil : host_rows decode (srest.foldl min s0)
          (srest.foldl max s0) host (pySorted rawdir) = []
      · rw [if_pos hnil] at hinv; exact absurd hinv (by simp)
      · rw [if_neg hnil] at hinv
        have hr2 : r ∈ host_rows decode (srest.foldl min s0)
            (srest.foldl max s0) host (pySorted rawdir) := by
          have : rows = host_rows decode (srest.foldl min s0)
              (srest.foldl max s0) host (pySorted rawdir) := by
            exact Option.some.inj hinv
          exact this ▸ hr
        exact host_rows_window decode (srest.foldl min s0)
          (srest.foldl max s0) host (pySorted rawdir) r hr2

/-- Witness for `parser_time_window` at checkpoints 10, 50, 30. -/
theorem parser_time_window_witness :
    ([10, 50, 30] : List Int) ≠ [] ∧
    ∃ tf, time_frame [10, 50, 30] = some tf ∧
      tf.start ∈ ([10, 50, 30] : List Int) ∧
      (∀ s ∈ ([10, 50, 30] : List Int), tf.start ≤ s) ∧
      tf.end_ ∈ ([10, 50, 30] : List Int) ∧
      (∀ s ∈ ([10, 50, 30] : List Int), s ≤ tf.end_) ∧
      ∀ (decode : String → Except DecodeError (List Row × Hardware))
        (rawdir : List String) (df : List (String × List Row))
        (hw : List (String × Hardware)) (marks : List Int),
        parser_run decode rawdir [10, 50, 30]
            = some (Except.ok (df, hw, marks)) →
        ∀ host rows, dictGet df host = some rows →
        ∀ r ∈ rows, tf.start ≤ r.tstamp ∧ r.tstamp ≤ tf.end_ :=
  ⟨by decide, parser_time_window [10, 50, 30] (by decide)⟩

/-- C5: the host key of each cached telemetry file is the filename with
the capture-timestamp suffix stripped, and the series a successful
Parser run stores for a host is exactly the concatenation, in sorted
filename iteration order, of the window-restricted decoded rows of the
files mapping to that host. -/
theorem parser_host_aggregation
    (decode : String → Except DecodeError (List Row × Hardware))
    (rawdir : List String) (steps : List Int)
    (df : List (String × List Row)) (hw : List (String × Hardware))
    (marks : List Int)
    (h : parser_run decode rawdir steps = some (Except.ok (df, hw, marks))) :
    (∀ base t, isTimestampSuffix t.data = true →
      strip_timestamp_suffix (base ++ t) = base) ∧
    ∃ tf, time_frame steps = some tf ∧
      ∀ host,
        dictGet df host =
          optAppend none
            (host_rows decode tf.start tf.end_ host (pySorted rawdir)) := by
  refine ⟨fun base t ht => strip_append_suffix base t ht, ?_⟩
  cases htf : time_frame steps with
  | none => simp [parser_run, htf] at h
  | some tf =>
    refine ⟨tf, rfl, fun host => ?_⟩
    simp only [parser_run, htf, Option.some.injEq] at h
    obtain ⟨acc, hfold, hg⟩ := exceptMap_ok h
    have hdf : acc.1 = df := by
      have := congrArg Prod.fst hg; simpa using this
    have hinv := parser_fold_rows decode tf.start tf.end_ (pySorted rawdir)
      ([], []) acc hfold host
    rw [hdf] at hinv
    simpa [dictGet_nil] using hinv

/-- Witness for `parser_host_aggregation`: two capture files of host
web1, listed out of order, aggregate into one ordered series. -/
theorem parser_host_aggregation_witness :
    (∀ base t, isTimestampSuffix t.data = true →
      strip_timestamp_suffix (base ++ t) = base) ∧
    ∃ tf, time_frame [10, 50, 30] = some tf ∧
      ∀ host,
        dictGet [("web1", [Row.mk 15 "r1", Row.mk 20 "r2"])] host =
          optAppend none
            (host_rows sampleDecode tf.start tf.end_ host
              (pySorted ["web1-20230102-000000.raw.gz",
                "web1-20230101-000000.raw.gz"])) :=
  parser_host_aggregation sampleDecode
    ["web1-20230102-000000.raw.gz", "web1-20230101-000000.raw.gz"]
    [10, 50, 30] [("web1", [Row.mk 15 "r1", Row.mk 20 "r2"])]
    [("web1", "hw2")] [10, 50, 30] (by decide)

/-- C6 counterexample: with cached files for host1, host2 and host3 and
the middle file malformed, `Parser.run` does not skip it: the decode
error propagates, the run returns the failure, and no results are
returned for any file — contradicting the claim that the remaining
files are still processed. -/
theorem parser_corrupt_aborts_cex :
    parser_run corruptDecode
        ["host1-20230101-000000.raw.gz", "host2-20230101-000000.raw.gz",
          "host3-20230101-000000.raw.gz"] [10, 50, 30]
      = some (Except.error
          (DecodeError.corrupt "host2-20230101-000000.raw.gz")) ∧
    ∀ df hw marks,
      parser_run corruptDecode
          ["host1-20230101-000000.raw.gz", "host2-20230101-000000.raw.gz",
            "host3-20230101-000000.raw.gz"] [10, 50, 30]
        ≠ some (Except.ok (df, hw, marks)) := by
  have h : parser_run corruptDecode
      ["host1-20230101-000000.raw.gz", "host2-20230101-000000.raw.gz",
        "host3-20230101-000000.raw.gz"] [10, 50, 30]
      = some (Except.error
          (DecodeError.corrupt "host2-20230101-000000.raw.gz")) := by decide
  refine ⟨h, ?_⟩
  intro df hw marks hc
  rw [h] at hc
  simp at hc

/-- C6 amended: `Parser.run` has no per-file exception handling around
the decode: a run that returns results decoded every telemetry-suffixed
cache file successfully, so a single malformed file prevents any result
from being returned rather than being skipped. -/
theorem parser_corrupt_file_aborts
    (decode : String → Except DecodeError (List Row × Hardware))
    (rawdir : List String) (steps : List Int)
    (df : List (String × List Row)) (hw : List (String × Hardware))
    (marks : List Int)
    (h : parser_run decode rawdir steps = some (Except.ok (df, hw, marks))) :
    ∀ f ∈ rawdir, pyEndsWith f ".raw.gz" = true → (decode f).isOk = true := by
  intro f hf hsuf
  cases htf : time_frame steps with
  | none => simp [parser_run, htf] at h
  | some tf =>
    simp only [parser_run, htf, Option.some.injEq] at h
    obtain ⟨acc, hfold, hg⟩ := exceptMap_ok h
    exact parser_fold_decode_ok decode tf.start tf.end_ (pySorted rawdir)
      ([], []) acc hfold f ((mem_pySorted rawdir f).mpr hf) hsuf

/-- Witness for `parser_corrupt_file_aborts` at an all-good cache. -/
theorem parser_corrupt_file_aborts_witness :
    (okDecode "web1-20230101-000000.raw.gz").isOk = true :=
  parser_corrupt_file_aborts okDecode ["web1-20230101-000000.raw.gz"]
    [10, 50, 30] [("web1", [Row.mk 20 "c"])] [("web1", "hw")] [10, 50, 30]
    (by decide) "web1-20230101-000000.raw.gz" (by decide) (by decide)

/-- C10: a successful Parser run returns its per-host series map and
its hardware-facts map over exactly the same keys, in the same
insertion order: a host has a time series iff it has hardware facts. -/
theorem parser_keymaps_agree
    (decode : String → Except DecodeError (List Row × Hardware))
    (rawdir : List String) (steps : List Int)
    (df : List (String × List Row)) (hw : List (String × Hardware))
    (marks : List Int)
    (h : parser_run decode rawdir steps = some (Except.ok (df, hw, marks))) :
    df.map Prod.fst = hw.map Prod.fst ∧
    ∀ host, (dictGet df host).isSome = true
      ↔ (dictGet hw host).isSome = true := by
  cases htf : time_frame steps with
  | none => simp [parser_run, htf] at h
  | some tf =>
    simp only [parser_run, htf, Option.some.injEq] at h
    obtain ⟨acc, hfold, hg⟩ := exceptMap_ok h
    have hdf : acc.1 = df := by
      have := congrArg Prod.fst hg; simpa using this
    have hhw : acc.2 = hw := by
      have := congrArg (fun p => p.2.1) hg; simpa using this
    have hkeys := parser_fold_keys decode tf.start tf.end_ (pySorted rawdir)
      ([], []) acc hfold rfl
    rw [hdf, hhw] at hkeys
    refine ⟨hkeys, fun host => ?_⟩
    constructor
    · intro hi
      cases hc2 : dictGet hw host with
      | none =>
        have hm := (dictGet_eq_none_iff hw host).mp hc2
        rw [← hkeys] at hm
        have hc1 := (dictGet_eq_none_iff df host).mpr hm
        rw [hc1] at hi
        simp at hi
      | some w => simp
    · intro hi
      cases hc1 : dictGet df host with
      | none =>
        have hm := (dictGet_eq_none_iff df host).mp hc1
        rw [hkeys] at hm
        have hc2 := (dictGet_eq_none_iff hw host).mpr hm
        rw [hc2] at hi
        simp at hi
      | some w => simp

/-- Witness for `parser_keymaps_agree` at the two-file web1 cache. -/
theorem parser_keymaps_agree_witness :
    List.map Prod.fst [("web1", [Row.mk 15 "r1", Row.mk 20 "r2"])]
        = List.map Prod.fst [("web1", ("hw2" : Hardware))] ∧
    ∀ host,
      (dictGet [("web1", [Row.mk 15 "r1", Row.mk 20 "r2"])] host).isSome = true
        ↔ (dictGet [("web1", ("hw2" : Hardware))] host).isSome = true :=
  parser_keymaps_agree sampleDecode
    ["web1-20230102-000000.raw.gz", "web1-20230101-000000.raw.gz"]
    [10, 50, 30] [("web1", [Row.mk 15 "r1", Row.mk 20 "r2"])]
    [("web1", "hw2")] [10, 50, 30] (by decide)

/-- C9: when the provider API response is non-2xx or unparsable, or the
query returns no security groups, the query result is the empty set
(with a log record in the failure cases, no exception), and the report
still gets its "sg" section, created with zero items, together with a
recorded warning — report generation always completes. -/
theorem report_sg_empty_nonfatal (doc : ReportDoc)
    (expected_sg : Option String) (resp : ApiResponse)
    (h : resp.status_code ≠ 200 ∨ resp.text = XmlBody.malformed ∨
      ∃ groups, resp.text = XmlBody.doc groups ∧ groups.filterMap id = []) :
    (security_groups resp).1 = [] ∧
    ((resp.status_code ≠ 200 ∨ resp.text = XmlBody.malformed) →
      (security_groups resp).2 ≠ []) ∧
    (∃ s ∈ (add_security_groups_info doc expected_sg resp).1.sections,
      s.name = "sg" ∧ s.items = []) ∧
    (LogLevel.warning, "No security groups defined.")
      ∈ (add_security_groups_info doc expected_sg resp).2 := by
  have hsg : (security_groups resp).1 = [] := by
    by_cases hst : resp.status_code = 200
    · rcases h with h | h | ⟨groups, hg, hfm⟩
      · exact absurd hst h
      · simp [security_groups, hst, h]
      · simp [security_groups, hst, hg, hfm]
    · simp [security_groups, hst]
  have hadd : add_security_groups_info doc expected_sg resp =
      (add_field (add_section doc "sg" "Security groups")
          "sg" "sg" "Security Group",
        (security_groups resp).2
          ++ [(LogLevel.warning, "No security groups defined.")]) := by
    simp [add_security_groups_info, hsg]
  refine ⟨hsg, ?_, ?_, ?_⟩
  · intro hcase
    by_cases hst : resp.status_code = 200
    · rcases hcase with hc | hc
      · exact absurd hst hc
      · simp [security_groups, hst, hc]
    · simp [security_groups, hst]
  · rw [hadd]
    refine ⟨⟨"sg", "Security groups", [("sg", "Security Group")], []⟩,
      ?_, rfl, rfl⟩
    simp only [add_field, add_section]
    exact List.mem_map.mpr ⟨⟨"sg", "Security groups", [], []⟩,
      List.mem_append_right _ (by simp), by simp⟩
  · rw [hadd]
    simp

/-- Witness for `report_sg_empty_nonfatal` at a 500 response. -/
theorem report_sg_empty_nonfatal_witness :
    (security_groups ⟨500, XmlBody.doc []⟩).1 = [] ∧
    ((500 ≠ 200 ∨ (XmlBody.doc [] : XmlBody) = XmlBody.malformed) →
      (security_groups ⟨500, XmlBody.doc []⟩).2 ≠ []) ∧
    (∃ s ∈ (add_security_groups_info ⟨[]⟩ none ⟨500, XmlBody.doc []⟩).1.sections,
      s.name = "sg" ∧ s.items = []) ∧
    (LogLevel.warning, "No security groups defined.")
      ∈ (add_security_groups_info ⟨[]⟩ none ⟨500, XmlBody.doc []⟩).2 :=
  report_sg_empty_nonfatal ⟨[]⟩ none ⟨500, XmlBody.doc []⟩
    (Or.inl (by decide))

end BcbioVM
